import Mathlib

/-!
Verification development for the sync / discovery subsystem of the Aventuras
repository (src/src-tauri/src/sync/{server,commands,types}.rs).

The Rust source is shallowly embedded: pure functions become Lean functions,
the stateful HTTP handler becomes explicit state passing over a `ServerStateM`
record, machine integers become `Nat` with explicit bounds where overflow or
wrapping matters, and code that can panic returns `Option` (`none` = panic).
-/

set_option maxRecDepth 4096

/-! ## Decimal rendering (Rust `Display` for unsigned integers and `format!("{:06}", _)`) -/

/-- The ASCII digit character for `n < 10`. -/
def digitChar (n : Nat) : Char := Char.ofNat (48 + n)

/-- Fuel-driven core of decimal rendering; `fuel` bounds the recursion depth so
that the definition is structural (and hence evaluable by the kernel). -/
def decDigitsAux : Nat → Nat → List Char
  | 0, _ => []
  | fuel + 1, n =>
    if n < 10 then [digitChar n]
    else decDigitsAux fuel (n / 10) ++ [digitChar (n % 10)]

/-- Most-significant-first decimal digits of `n`, as Rust's `Display` for
unsigned integers prints them (`0` prints as `"0"`). -/
def decDigits (n : Nat) : List Char := decDigitsAux (n + 1) n

theorem decDigitsAux_fuel (fuel fuel' n : Nat) (h : n < fuel) (h' : n < fuel') :
    decDigitsAux fuel n = decDigitsAux fuel' n := by
  induction fuel generalizing fuel' n with
  | zero => omega
  | succ fuel ih =>
    cases fuel' with
    | zero => omega
    | succ fuel' =>
      simp only [decDigitsAux]
      by_cases h10 : n < 10
      · simp [h10]
      · simp only [h10, if_false]
        have hd : n / 10 < n := Nat.div_lt_self (by omega) (by omega)
        rw [ih fuel' (n / 10) (by omega) (by omega)]

theorem decDigits_eq (n : Nat) :
    decDigits n = if n < 10 then [digitChar n]
      else decDigits (n / 10) ++ [digitChar (n % 10)] := by
  have hstep : decDigitsAux (n + 1) n =
      if n < 10 then [digitChar n]
      else decDigitsAux n (n / 10) ++ [digitChar (n % 10)] := rfl
  rw [decDigits, hstep]
  by_cases h10 : n < 10
  · simp [h10]
  · simp only [h10, if_false]
    have hd : n / 10 < n := Nat.div_lt_self (by omega) (by omega)
    congr 1
    exact decDigitsAux_fuel n (n / 10 + 1) (n / 10) (by omega) (by omega)

/-- Decimal rendering of a `Nat` (Rust `format!("{}", n)` for an unsigned int). -/
def natToDec (n : Nat) : String := String.mk (decDigits n)

/-- Zero-padded 6-wide decimal rendering, Rust `format!("{:06}", n)`. -/
def format06 (n : Nat) : String :=
  String.mk (List.replicate (6 - (decDigits n).length) '0' ++ decDigits n)

theorem decDigits_length_le (k : Nat) (hk : 1 ≤ k) :
    ∀ n, n < 10 ^ k → (decDigits n).length ≤ k := by
  induction k with
  | zero => omega
  | succ k ih =>
    intro n hn
    rw [decDigits_eq]
    by_cases h : n < 10
    · simp [h]
    · simp only [h, if_false, List.length_append, List.length_cons, List.length_nil]
      have hk1 : 1 ≤ k := by
        by_contra hc
        have : k = 0 := by omega
        subst this
        simp [pow_succ, pow_zero] at hn
        omega
      have hdiv : n / 10 < 10 ^ k := by
        rw [Nat.div_lt_iff_lt_mul (by omega)]
        calc n < 10 ^ (k + 1) := hn
        _ = 10 ^ k * 10 := by rw [pow_succ]
      have := ih hk1 (n / 10) hdiv
      omega

theorem decDigits_all_digit (n : Nat) : ∀ c ∈ decDigits n, c.isDigit = true := by
  induction n using Nat.strong_induction_on with
  | _ n ih =>
    intro c hc
    rw [decDigits_eq] at hc
    by_cases h : n < 10
    · simp [h] at hc
      subst hc
      interval_cases n <;> decide
    · simp only [h, if_false, List.mem_append, List.mem_cons, List.not_mem_nil, or_false] at hc
      rcases hc with hc | hc
      · exact ih (n / 10) (Nat.div_lt_self (by omega) (by omega)) c hc
      · subst hc
        have h10 : n % 10 < 10 := Nat.mod_lt _ (by omega)
        generalize hm : n % 10 = m at *
        interval_cases m <;> decide

theorem decDigits_length_pos (n : Nat) : 1 ≤ (decDigits n).length := by
  rw [decDigits_eq]
  by_cases h : n < 10 <;> simp [h]

theorem format06_length (n : Nat) (h : n < 1000000) : (format06 n).length = 6 := by
  have h6 : (decDigits n).length ≤ 6 := decDigits_length_le 6 (by omega) n (by norm_num; omega)
  have h1 := decDigits_length_pos n
  simp only [format06, String.length, String.mk]
  simp only [List.length_append, List.length_replicate]
  omega

theorem format06_all_digit (n : Nat) : ∀ c ∈ (format06 n).data, c.isDigit = true := by
  intro c hc
  simp only [format06, String.mk, List.mem_append] at hc
  rcases hc with hc | hc
  · have := List.eq_of_mem_replicate hc
    subst this
    decide
  · exact decDigits_all_digit n c hc

example : format06 0 = "000000" := by decide
example : format06 847316 = "847316" := by decide
example : natToDec 30 = "30" := by decide

/-! ## Token, connect code and validation (server.rs lines 56-74)

`token_to_connect_code` slices the hyphen-stripped token at **byte** index 8
(`&clean[..8]`); in Rust this panics when byte 8 is not a UTF-8 character
boundary, so the embedding returns `Option String` with `none` standing for
the panic. -/

/-- UTF-8 encoded byte length of one character (Rust `char::len_utf8`). -/
def charUtf8Size (c : Char) : Nat :=
  if c.toNat < 128 then 1
  else if c.toNat < 2048 then 2
  else if c.toNat < 65536 then 3
  else 4

/-- UTF-8 byte length of a string's characters (Rust `str::len`). -/
def utf8Len (cs : List Char) : Nat := (cs.map charUtf8Size).sum

/-- Rust `token.replace('-', "")`: drop every hyphen. -/
def stripHyphens (s : String) : String :=
  String.mk (s.data.filter (fun c => c ≠ '-'))

/-- The characters making up the first `n` **bytes** of a string
(Rust `&s[..n]`); `none` models the panic when `n` is not on a character
boundary or exceeds the string. -/
def takeBytes : List Char → Nat → Option (List Char)
  | _, 0 => some []
  | [], _ + 1 => none
  | c :: cs, n + 1 =>
    if charUtf8Size c ≤ n + 1 then
      (takeBytes cs (n + 1 - charUtf8Size c)).map (fun l => c :: l)
    else none

/-- Rust `char::to_digit(16)`: hexadecimal value of a digit character. -/
def hexDigitVal (c : Char) : Option Nat :=
  if 48 ≤ c.toNat ∧ c.toNat ≤ 57 then some (c.toNat - 48)
  else if 97 ≤ c.toNat ∧ c.toNat ≤ 102 then some (c.toNat - 87)
  else if 65 ≤ c.toNat ∧ c.toNat ≤ 70 then some (c.toNat - 55)
  else none

/-- Rust `u32::from_str_radix(s, 16)`: an optional leading `+`, then at least
one hex digit, with overflow beyond `u32::MAX` rejected; `none` models `Err`. -/
def u32FromHex (cs : List Char) : Option Nat :=
  let digits := match cs with
    | c :: rest => if c = '+' then rest else cs
    | [] => cs
  if digits.isEmpty then none
  else
    digits.foldl (fun acc c =>
      match acc, hexDigitVal c with
      | some a, some d =>
        if a * 16 + d < 4294967296 then some (a * 16 + d) else none
      | _, _ => none) (some 0)

/-- The `hex_str` slice chosen by `token_to_connect_code` (server.rs 59-65):
the first 8 bytes of the hyphen-stripped token when it has at least 8 bytes,
the whole of it otherwise; `none` models the byte-slicing panic. -/
def hexStrOf (token : String) : Option (List Char) :=
  let clean := (stripHyphens token).data
  if 8 ≤ utf8Len clean then takeBytes clean 8 else some clean

/-- server.rs 58-68: derive the 6-digit connect code from a token;
`none` models the panic of `&clean[..8]` off a character boundary. -/
def token_to_connect_code (token : String) : Option String :=
  (hexStrOf token).map (fun hexStr =>
    let val := (u32FromHex hexStr).getD 0
    format06 (val % 1000000))

/-- server.rs 72-74: accept the full token or the derived connect code.
Rust `||` short-circuits, so the connect code (and its possible panic) is
only computed when the first comparison fails. -/
def validate_token (request_token server_token : String) : Option Bool :=
  if request_token = server_token then some true
  else (token_to_connect_code server_token).map (fun code => request_token == code)

/-- Modelled from the spec's words (§3): the token's leading 8 hex characters
(hyphens removed) interpreted as an unsigned 32-bit integer, mod 1,000,000,
zero-padded to 6 decimal digits.  Stated separately from
`token_to_connect_code` so the code can be compared against it. -/
def specDeriveConnectCode (token : String) : String :=
  let first8 := (stripHyphens token).data.take 8
  let v := first8.foldl (fun a c => a * 16 + (hexDigitVal c).getD 0) 0
  format06 (v % 1000000)

example : token_to_connect_code "a1b2c3d4-0000" = some "847316" := by decide
example : token_to_connect_code "" = some "000000" := by decide
example : token_to_connect_code "zzzzzzzz-1" = some "000000" := by decide

/-! ## Sync protocol data model (types.rs) and handler state (server.rs 22-54) -/

/-- types.rs 24-33: preview of a story available for sync. -/
structure SyncStoryPreview where
  id : String
  title : String
  genre : Option String
  updated_at : Int
  entry_count : Nat
deriving DecidableEq

/-- server.rs 37-42: a story offered by the server (preview plus full export). -/
structure StoriesData where
  preview : SyncStoryPreview
  full_data : String
deriving DecidableEq

/-- types.rs 95-103: an activity event surfaced to the mobile UI. -/
structure SyncEvent where
  event_type : String
  message : String
deriving DecidableEq

/-- types.rs 42-52: actions that can be performed on the sync server. -/
inductive SyncAction where
  | listStories
  | pullStory (story_id : String)
  | pushStory (story_data : String)
deriving DecidableEq

/-- types.rs 35-40: a request to the sync server. -/
structure SyncRequest where
  token : String
  action : SyncAction
deriving DecidableEq

/-- types.rs 54-66: the closed response type of the sync server. -/
inductive SyncResponse where
  | storiesList (stories : List SyncStoryPreview)
  | storyData (data : String)
  | success (message : String)
  | error (message : String)
deriving DecidableEq

/-- server.rs 22-35: the shared server state.  The `auth_failures` HashMap
becomes an association list from client IP to (failure count, last failure
time); `std::time::Instant` becomes a `Nat` count of seconds. -/
structure ServerStateM where
  token : String
  stories : List StoriesData
  received_stories : List String
  sync_events : List SyncEvent
  auth_failures : List (String × Nat × Nat)
deriving DecidableEq

/-- `HashMap::get`: the value stored for `ip`, if any. -/
def afLookup : List (String × Nat × Nat) → String → Option (Nat × Nat)
  | [], _ => none
  | (k, c, t) :: rest, ip => if k = ip then some (c, t) else afLookup rest ip

/-- `HashMap::insert`-like update used through `entry(..)`: replace the first
binding of `ip`, or append a new one. -/
def afSet : List (String × Nat × Nat) → String → Nat × Nat → List (String × Nat × Nat)
  | [], ip, v => [(ip, v.1, v.2)]
  | (k, c, t) :: rest, ip, v =>
    if k = ip then (ip, v.1, v.2) :: rest else (k, c, t) :: afSet rest ip v

/-- `HashMap::remove`: drop the binding of `ip`. -/
def afRemove (l : List (String × Nat × Nat)) (ip : String) : List (String × Nat × Nat) :=
  l.filter (fun e => e.1 ≠ ip)

/-- server.rs 134-144: record a failed auth attempt for `ip` at time `now`:
`entry(ip).or_insert((0, now))`, reset the counter when the block period has
expired, then increment the count and refresh the timestamp. -/
def afRecordFailure (l : List (String × Nat × Nat)) (ip : String) (now : Nat) :
    List (String × Nat × Nat) :=
  let prev := match afLookup l ip with
    | some (c, t) => if 60 ≤ now - t then 0 else c
    | none => 0
  afSet l ip (prev + 1, now)

/-- server.rs 157-214: dispatch of an authenticated action against the store. -/
def dispatchAction (action : SyncAction) (s : ServerStateM) : SyncResponse × ServerStateM :=
  match action with
  | .listStories =>
    let previews := s.stories.map (fun st => st.preview)
    (SyncResponse.storiesList previews,
     { s with sync_events := s.sync_events ++
        [⟨"connected", "Device connected — " ++ natToDec previews.length ++ " stories available"⟩] })
  | .pullStory story_id =>
    match s.stories.find? (fun st => st.preview.id == story_id) with
    | some story =>
      (SyncResponse.storyData story.full_data,
       { s with sync_events := s.sync_events ++
          [⟨"pulled", "Sent \"" ++ story.preview.title ++ "\" to other device"⟩] })
    | none => (SyncResponse.error ("Story not found: " ++ story_id), s)
  | .pushStory story_data =>
    (SyncResponse.success "Story received successfully",
     { s with
        sync_events := s.sync_events ++ [⟨"pushed", "Receiving story from other device..."⟩],
        received_stories := s.received_stories ++ [story_data] })

/-- server.rs 132-155: token validation, failure recording and the success
path clearing the failure history; `none` models a panic escaping the
handler (only possible inside `validate_token`). -/
def handleSyncAuth (now : Nat) (client_ip : String) (request : SyncRequest)
    (s : ServerStateM) : Option (SyncResponse × ServerStateM) :=
  match validate_token request.token s.token with
  | none => none
  | some false =>
    some (SyncResponse.error "Invalid authentication token",
          { s with auth_failures := afRecordFailure s.auth_failures client_ip now })
  | some true =>
    some (dispatchAction request.action
          { s with auth_failures := afRemove s.auth_failures client_ip })

/-- server.rs 106-215: the `/sync` handler.  The rate-limit gate (113-130)
runs before token validation; `now` stands for the current time in seconds,
so `last_time.elapsed().as_secs()` becomes `now - last_time`. -/
def handleSync (now : Nat) (client_ip : String) (request : SyncRequest)
    (s : ServerStateM) : Option (SyncResponse × ServerStateM) :=
  match afLookup s.auth_failures client_ip with
  | some (count, last_time) =>
    if 5 ≤ count ∧ now - last_time < 60 then
      some (SyncResponse.error
              ("Too many failed attempts. Try again in " ++
               natToDec (60 - (now - last_time)) ++ " seconds."),
            s)
    else handleSyncAuth now client_ip request s
  | none => handleSyncAuth now client_ip request s

/-! ## Command layer (commands.rs 232-278), over an optional server session -/

/-- commands.rs 233-242: `get_received_stories` — empty list when no server
session is active. -/
def get_received_stories (server_state : Option ServerStateM) : Except String (List String) :=
  match server_state with
  | some ss => Except.ok ss.received_stories
  | none => Except.ok []

/-- commands.rs 245-253: `clear_received_stories` — clears the list when a
session is active, otherwise does nothing; always `Ok`. -/
def clear_received_stories (server_state : Option ServerStateM) :
    Except String Unit × Option ServerStateM :=
  match server_state with
  | some ss => (Except.ok (), some { ss with received_stories := [] })
  | none => (Except.ok (), none)

/-- commands.rs 261-271: `get_sync_events` — drains (read-and-clear) the
pending events; empty list when no server session is active. -/
def get_sync_events (server_state : Option ServerStateM) :
    Except String (List SyncEvent) × Option ServerStateM :=
  match server_state with
  | some ss => (Except.ok ss.sync_events, some { ss with sync_events := [] })
  | none => (Except.ok [], none)

/-! ## UDP discovery (types.rs 77-114, server.rs 217-414, commands.rs 289-374) -/

/-- types.rs 3-10: fixed ports and the application identifier. -/
def DISCOVERY_PORT : Nat := 55556

/-- types.rs 10: application identifier for discovery broadcasts. -/
def APP_IDENTIFIER : String := "aventuras"

/-- types.rs 77-93: the datagram type of a discovery response.  Note that the
declaration includes an `token` field (serialized like every other field),
even though commands.rs 305-313 documents and intends a token-free response
and its `DiscoveryBroadcast` literal does not initialize `token`. -/
structure DiscoveryBroadcast where
  app : String
  ip : String
  port : Nat
  token : String
  version : String
  device_name : String
deriving DecidableEq

/-- The (key, value) pairs `serde_json::to_string` emits for a
`DiscoveryBroadcast`, in field-declaration order with the `camelCase` rename
of types.rs 79; string values are kept unescaped.  Serde serializes every
declared field, so `token` appears in every serialized discovery response. -/
def DiscoveryBroadcast.serializedPairs (b : DiscoveryBroadcast) : List (String × String) :=
  [("app", b.app), ("ip", b.ip), ("port", natToDec b.port),
   ("token", b.token), ("version", b.version), ("deviceName", b.device_name)]

/-- types.rs 105-114 declares `DiscoveredDevice` with fields ip, port, token,
version, device_name; the requester's record literal (server.rs 389-394) only
initializes ip, port, version and device_name, so the embedding carries
exactly the fields that literal assigns. -/
structure DiscoveredDevice where
  ip : String
  port : Nat
  version : String
  device_name : String
deriving DecidableEq

/-- server.rs 389-394: the device record built from an admitted reply. -/
def mkDiscoveredDevice (b : DiscoveryBroadcast) : DiscoveredDevice :=
  { ip := b.ip, port := b.port, version := b.version, device_name := b.device_name }

/-- server.rs 396-402: replace the first entry with the same ip
(`iter_mut().find`), or push the device at the end. -/
def upsertDevice : List DiscoveredDevice → DiscoveredDevice → List DiscoveredDevice
  | [], dev => [dev]
  | d :: rest, dev => if d.ip = dev.ip then dev :: rest else d :: upsertDevice rest dev

/-- server.rs 384-404: processing of one received datagram by the discovery
requester.  `datagram` is the result of `serde_json::from_slice`; `none`
(malformed or foreign data) leaves the list untouched, and a parsed reply is
admitted only when its `app` field equals `APP_IDENTIFIER`. -/
def requesterStep (devices : List DiscoveredDevice) (datagram : Option DiscoveryBroadcast) :
    List DiscoveredDevice :=
  match datagram with
  | none => devices
  | some broadcast =>
    if broadcast.app = APP_IDENTIFIER then upsertDevice devices (mkDiscoveredDevice broadcast)
    else devices

/-! ## Broadcast target computation (server.rs 297-338) -/

/-- Four octets of an IPv4 address. -/
structure Ipv4 where
  o1 : Nat
  o2 : Nat
  o3 : Nat
  o4 : Nat
deriving DecidableEq

/-- The address variants reported by `if_addrs::get_if_addrs`. -/
inductive IfaceAddr where
  | v4 (ip : Ipv4) (netmask : Ipv4)
  | v6
deriving DecidableEq

/-- One local network interface. -/
structure Iface where
  is_loopback : Bool
  addr : IfaceAddr
deriving DecidableEq

/-- Bitwise complement within one octet (`!mask` on a `u8`). -/
def not8 (m : Nat) : Nat := (m % 256) ^^^ 255

/-- server.rs 316-322: broadcast address `ip | !netmask`, octet-wise. -/
def broadcastOf (ip mask : Ipv4) : Ipv4 :=
  ⟨ip.o1 % 256 ||| not8 mask.o1, ip.o2 % 256 ||| not8 mask.o2,
   ip.o3 % 256 ||| not8 mask.o3, ip.o4 % 256 ||| not8 mask.o4⟩

/-- server.rs 323: `format!("{}:{}", broadcast, DISCOVERY_PORT)`. -/
def formatTarget (a : Ipv4) : String :=
  natToDec a.o1 ++ "." ++ natToDec a.o2 ++ "." ++ natToDec a.o3 ++ "." ++ natToDec a.o4
    ++ ":" ++ natToDec DISCOVERY_PORT

/-- The target string one interface contributes (server.rs 309-327): nothing
for loopback or non-IPv4 interfaces, the formatted subnet broadcast otherwise. -/
def ifaceTarget (iface : Iface) : Option String :=
  if iface.is_loopback then none
  else match iface.addr with
    | .v4 ip mask => some (formatTarget (broadcastOf ip mask))
    | .v6 => none

/-- server.rs 304-338: compute the deduplicated list of discovery targets and
append the limited broadcast unless that exact string is already present. -/
def compute_broadcast_targets (interfaces : List Iface) : List String :=
  let targets := interfaces.foldl (fun ts iface =>
    match ifaceTarget iface with
    | some t => if ts.contains t then ts else ts ++ [t]
    | none => ts) []
  let fallback := formatTarget ⟨255, 255, 255, 255⟩
  if targets.contains fallback then targets else targets ++ [fallback]

example :
    compute_broadcast_targets [⟨false, .v4 ⟨192, 168, 1, 42⟩ ⟨255, 255, 255, 0⟩⟩] =
      ["192.168.1.255:55556", "255.255.255.255:55556"] := by decide
example : compute_broadcast_targets [] = ["255.255.255.255:55556"] := by decide

/-! ## Handler lemmas -/

theorem afLookup_afRemove (l : List (String × Nat × Nat)) (ip : String) :
    afLookup (afRemove l ip) ip = none := by
  induction l with
  | nil => rfl
  | cons e rest ih =>
    obtain ⟨k, c, t⟩ := e
    by_cases hk : k = ip
    · simpa [afRemove, hk] using ih
    · simpa [afRemove, afLookup, hk] using ih

theorem dispatchAction_auth_failures (action : SyncAction) (s : ServerStateM) :
    (dispatchAction action s).2.auth_failures = s.auth_failures := by
  cases action with
  | listStories => rfl
  | pullStory story_id =>
    simp only [dispatchAction]
    cases s.stories.find? (fun st => st.preview.id == story_id) <;> rfl
  | pushStory story_data => rfl

theorem handleSync_not_limited (now : Nat) (client_ip : String) (request : SyncRequest)
    (s : ServerStateM)
    (hgate : ∀ e, afLookup s.auth_failures client_ip = some e → ¬(5 ≤ e.1 ∧ now - e.2 < 60)) :
    handleSync now client_ip request s = handleSyncAuth now client_ip request s := by
  unfold handleSync
  cases hl : afLookup s.auth_failures client_ip with
  | none => rfl
  | some e =>
    obtain ⟨c, t⟩ := e
    dsimp only
    rw [if_neg (hgate (c, t) hl)]

/-- C2: once an IP's failure count has reached 5 and less than 60 s have
elapsed since its last failure, any request from it (even one with the
correct token) is rejected with a remaining-cooldown message and the whole
state — in particular the auth-failure record — is left unchanged; and a
successful validation (when not rate-limited) removes that IP's failure
record entirely, whatever the action. -/
theorem c2_rate_limiter (now : Nat) (client_ip : String) (request : SyncRequest)
    (s : ServerStateM) (count last_time : Nat) :
    (afLookup s.auth_failures client_ip = some (count, last_time) → 5 ≤ count →
      now - last_time < 60 →
      handleSync now client_ip request s =
        some (SyncResponse.error
                ("Too many failed attempts. Try again in " ++
                 natToDec (60 - (now - last_time)) ++ " seconds."),
              s)) ∧
    ((∀ e, afLookup s.auth_failures client_ip = some e → ¬(5 ≤ e.1 ∧ now - e.2 < 60)) →
      validate_token request.token s.token = some true →
      ∀ resp s', handleSync now client_ip request s = some (resp, s') →
        afLookup s'.auth_failures client_ip = none) := by
  constructor
  · intro hl hc ht
    unfold handleSync
    rw [hl]
    dsimp only
    rw [if_pos ⟨hc, ht⟩]
  · intro hgate hv resp s' heq
    rw [handleSync_not_limited now client_ip request s hgate] at heq
    unfold handleSyncAuth at heq
    rw [hv] at heq
    have hpair : dispatchAction request.action
        { s with auth_failures := afRemove s.auth_failures client_ip } = (resp, s') := by
      exact Option.some.inj heq
    have hs' : s' = (dispatchAction request.action
        { s with auth_failures := afRemove s.auth_failures client_ip }).2 := by
      rw [hpair]
    rw [hs', dispatchAction_auth_failures]
    exact afLookup_afRemove s.auth_failures client_ip

/-- C2 witness: with 5 recorded failures 30 s ago, a request with the correct
token is rejected with "Try again in 30 seconds." and the state is unchanged;
with only 3 failures, a correct-token request clears the failure record. -/
theorem c2_rate_limiter_witness :
    (handleSync 130 "9.9.9.9" ⟨"tok", SyncAction.listStories⟩
        ⟨"tok", [], [], [], [("9.9.9.9", 5, 100)]⟩ =
      some (SyncResponse.error
              ("Too many failed attempts. Try again in " ++
               natToDec (60 - (130 - 100)) ++ " seconds."),
            ⟨"tok", [], [], [], [("9.9.9.9", 5, 100)]⟩)) ∧
    afLookup (⟨"tok", [], [], [⟨"connected", "Device connected — 0 stories available"⟩],
        []⟩ : ServerStateM).auth_failures "9.9.9.9" = none :=
  ⟨(c2_rate_limiter 130 "9.9.9.9" ⟨"tok", SyncAction.listStories⟩
      ⟨"tok", [], [], [], [("9.9.9.9", 5, 100)]⟩ 5 100).1 (by decide) (by decide) (by decide),
   (c2_rate_limiter 130 "9.9.9.9" ⟨"tok", SyncAction.listStories⟩
      ⟨"tok", [], [], [], [("9.9.9.9", 3, 100)]⟩ 3 100).2
     (by intro e he; obtain ⟨c, t⟩ := e; simp [afLookup] at he; omega)
     (by decide) (SyncResponse.storiesList [])
     ⟨"tok", [], [], [⟨"connected", "Device connected — 0 stories available"⟩], []⟩
     (by decide)⟩

/-- C5: for an authenticated `PullStory` request, a matching offer yields a
`StoryData` response with that offer's full payload and exactly one "pulled"
event naming its title; a miss yields an `Error` naming the id and appends no
event; stories and received stories are unchanged in both cases (only the
auth-failure record of the successful caller is cleared). -/
theorem c5_pull_story (now : Nat) (client_ip tok story_id : String) (s : ServerStateM)
    (hgate : ∀ e, afLookup s.auth_failures client_ip = some e → ¬(5 ≤ e.1 ∧ now - e.2 < 60))
    (hv : validate_token tok s.token = some true) :
    (∀ story, s.stories.find? (fun st => st.preview.id == story_id) = some story →
      handleSync now client_ip ⟨tok, SyncAction.pullStory story_id⟩ s =
        some (SyncResponse.storyData story.full_data,
          { s with
              sync_events := s.sync_events ++
                [⟨"pulled", "Sent \"" ++ story.preview.title ++ "\" to other device"⟩],
              auth_failures := afRemove s.auth_failures client_ip })) ∧
    (s.stories.find? (fun st => st.preview.id == story_id) = none →
      handleSync now client_ip ⟨tok, SyncAction.pullStory story_id⟩ s =
        some (SyncResponse.error ("Story not found: " ++ story_id),
          { s with auth_failures := afRemove s.auth_failures client_ip })) ∧
    (s.stories.find? (fun st => st.preview.id == story_id) = none ↔
      ∀ st ∈ s.stories, ¬st.preview.id = story_id) := by
  refine ⟨?_, ?_, ?_⟩
  · intro story hfind
    rw [handleSync_not_limited now client_ip _ s hgate]
    unfold handleSyncAuth
    rw [hv]
    unfold dispatchAction
    dsimp only
    rw [hfind]
  · intro hfind
    rw [handleSync_not_limited now client_ip _ s hgate]
    unfold handleSyncAuth
    rw [hv]
    unfold dispatchAction
    dsimp only
    rw [hfind]
  · simp [List.find?_eq_none]

/-- C5 witness: on a store offering ("a", "Alpha", "PAYLOAD_A"), pulling "a"
returns the payload and appends the "pulled" event; pulling "missing" returns
the not-found error and appends nothing. -/
theorem c5_pull_story_witness :
    (handleSync 7 "1.2.3.4" ⟨"tok", SyncAction.pullStory "a"⟩
        ⟨"tok", [⟨⟨"a", "Alpha", none, 0, 1⟩, "PAYLOAD_A"⟩], [], [], []⟩ =
      some (SyncResponse.storyData "PAYLOAD_A",
        ⟨"tok", [⟨⟨"a", "Alpha", none, 0, 1⟩, "PAYLOAD_A"⟩], [],
         [⟨"pulled", "Sent \"Alpha\" to other device"⟩], []⟩)) ∧
    (handleSync 7 "1.2.3.4" ⟨"tok", SyncAction.pullStory "missing"⟩
        ⟨"tok", [⟨⟨"a", "Alpha", none, 0, 1⟩, "PAYLOAD_A"⟩], [], [], []⟩ =
      some (SyncResponse.error "Story not found: missing",
        ⟨"tok", [⟨⟨"a", "Alpha", none, 0, 1⟩, "PAYLOAD_A"⟩], [], [], []⟩)) := by
  constructor
  · have h := (c5_pull_story 7 "1.2.3.4" "tok" "a"
      ⟨"tok", [⟨⟨"a", "Alpha", none, 0, 1⟩, "PAYLOAD_A"⟩], [], [], []⟩
      (fun e he => nomatch he) (by decide)).1
      ⟨⟨"a", "Alpha", none, 0, 1⟩, "PAYLOAD_A"⟩ (by decide)
    exact h
  · have h := (c5_pull_story 7 "1.2.3.4" "tok" "missing"
      ⟨"tok", [⟨⟨"a", "Alpha", none, 0, 1⟩, "PAYLOAD_A"⟩], [], [], []⟩
      (fun e he => nomatch he) (by decide)).2.1 (by decide)
    exact h

/-- C6: for an authenticated `PushStory` request the handler unconditionally
appends the payload to the received stories, appends exactly one "pushed"
event, and returns `Success`; pushing the same payload twice yields two
entries. -/
theorem c6_push_story (now : Nat) (client_ip tok story_data : String) (s : ServerStateM)
    (hgate : ∀ e, afLookup s.auth_failures client_ip = some e → ¬(5 ≤ e.1 ∧ now - e.2 < 60))
    (hv : validate_token tok s.token = some true) :
    handleSync now client_ip ⟨tok, SyncAction.pushStory story_data⟩ s =
      some (SyncResponse.success "Story received successfully",
        { s with
            received_stories := s.received_stories ++ [story_data],
            sync_events := s.sync_events ++ [⟨"pushed", "Receiving story from other device..."⟩],
            auth_failures := afRemove s.auth_failures client_ip }) ∧
    ∃ s₂, handleSync now client_ip ⟨tok, SyncAction.pushStory story_data⟩
        { s with
            received_stories := s.received_stories ++ [story_data],
            sync_events := s.sync_events ++ [⟨"pushed", "Receiving story from other device..."⟩],
            auth_failures := afRemove s.auth_failures client_ip } =
        some (SyncResponse.success "Story received successfully", s₂) ∧
      s₂.received_stories = s.received_stories ++ [story_data, story_data] := by
  have hstep : ∀ s' : ServerStateM, validate_token tok s'.token = some true →
      (∀ e, afLookup s'.auth_failures client_ip = some e → ¬(5 ≤ e.1 ∧ now - e.2 < 60)) →
      handleSync now client_ip ⟨tok, SyncAction.pushStory story_data⟩ s' =
        some (SyncResponse.success "Story received successfully",
          { s' with
              received_stories := s'.received_stories ++ [story_data],
              sync_events := s'.sync_events ++
                [⟨"pushed", "Receiving story from other device..."⟩],
              auth_failures := afRemove s'.auth_failures client_ip }) := by
    intro s' hv' hgate'
    rw [handleSync_not_limited now client_ip _ s' hgate']
    unfold handleSyncAuth
    rw [hv']
    rfl
  constructor
  · exact hstep s hv hgate
  · refine ⟨_, hstep _ hv (fun e he => ?_), ?_⟩
    · rw [afLookup_afRemove] at he
      exact nomatch he
    · simp

/-- C6 witness: pushing "X" to a fresh store appends it once with one
"pushed" event, and pushing it again yields two entries. -/
theorem c6_push_story_witness :
    (handleSync 0 "10.0.0.7" ⟨"tok", SyncAction.pushStory "X"⟩ ⟨"tok", [], [], [], []⟩ =
      some (SyncResponse.success "Story received successfully",
        ⟨"tok", [], ["X"], [⟨"pushed", "Receiving story from other device..."⟩], []⟩)) ∧
    ∃ s₂, handleSync 0 "10.0.0.7" ⟨"tok", SyncAction.pushStory "X"⟩
        ⟨"tok", [], ["X"], [⟨"pushed", "Receiving story from other device..."⟩], []⟩ =
        some (SyncResponse.success "Story received successfully", s₂) ∧
      s₂.received_stories = ["X", "X"] := by
  have h := c6_push_story 0 "10.0.0.7" "tok" "X" ⟨"tok", [], [], [], []⟩
    (fun e he => nomatch he) (by decide)
  exact h

/-- C7: draining the activity event log returns all pending events in append
order and leaves the log empty, so an immediately following second drain
returns an empty list. -/
theorem c7_drain_exactly_once (ss : ServerStateM) :
    get_sync_events (some ss) = (Except.ok ss.sync_events, some { ss with sync_events := [] }) ∧
    (get_sync_events (get_sync_events (some ss)).2).1 = Except.ok [] ∧
    (get_sync_events (get_sync_events (some ss)).2).2 = some { ss with sync_events := [] } :=
  ⟨rfl, rfl, rfl⟩

/-- C10: with no active server session, `get_received_stories` and
`get_sync_events` return `Ok` with an empty list, and
`clear_received_stories` returns `Ok` without modifying anything. -/
theorem c10_no_session_defaults :
    get_received_stories none = Except.ok [] ∧
    get_sync_events none = (Except.ok [], none) ∧
    clear_received_stories none = (Except.ok (), none) :=
  ⟨rfl, rfl, rfl⟩

/-- C1 (code bug): types.rs declares a `token` field inside
`DiscoveryBroadcast`, so serde serializes a sixth, `token` key into every
discovery response datagram — the serialized payload does not consist of only
app id, ip, port, version and device name, contrary to the claim and to the
code's own comments (commands.rs 291, 305-306); moreover the response literal
built in `start_udp_broadcast` (commands.rs 307-313) fails to initialize the
required `token` field at all, which does not even compile. -/
theorem c1_token_field_serialized :
    (DiscoveryBroadcast.serializedPairs
        ⟨"aventuras", "192.168.1.5", 55555, "secret-session-token", "1.0",
         "Android Device"⟩).map Prod.fst =
      ["app", "ip", "port", "token", "version", "deviceName"] ∧
    ("token", "secret-session-token") ∈
      (DiscoveryBroadcast.serializedPairs
        ⟨"aventuras", "192.168.1.5", 55555, "secret-session-token", "1.0",
         "Android Device"⟩) ∧
    "token" ∉ ["app", "ip", "port", "version", "deviceName"] := by
  refine ⟨by decide, by decide, by decide⟩

/-! ## Discovery requester lemmas (C8) -/

theorem upsertDevice_find (l : List DiscoveredDevice) (dev : DiscoveredDevice) :
    (upsertDevice l dev).find? (fun d => d.ip == dev.ip) = some dev := by
  induction l with
  | nil => simp [upsertDevice, List.find?]
  | cons d rest ih =>
    by_cases h : d.ip = dev.ip
    · simp [upsertDevice, h, List.find?]
    · simp only [upsertDevice, if_neg h, List.find?]
      rw [show (d.ip == dev.ip) = false from beq_eq_false_iff_ne.mpr h]
      exact ih

theorem mem_map_ip_upsert (l : List DiscoveredDevice) (dev : DiscoveredDevice) (x : String) :
    x ∈ (upsertDevice l dev).map (fun d => d.ip) →
      x ∈ l.map (fun d => d.ip) ∨ x = dev.ip := by
  induction l with
  | nil => simp [upsertDevice]
  | cons d rest ih =>
    by_cases h : d.ip = dev.ip
    · simp only [upsertDevice, if_pos h, List.map_cons, List.mem_cons]
      rintro (hx | hx)
      · exact Or.inr hx
      · exact Or.inl (Or.inr hx)
    · simp only [upsertDevice, if_neg h, List.map_cons, List.mem_cons]
      rintro (hx | hx)
      · exact Or.inl (Or.inl hx)
      · rcases ih hx with h' | h'
        · exact Or.inl (Or.inr h')
        · exact Or.inr h'

theorem nodup_map_ip_upsert (l : List DiscoveredDevice) (dev : DiscoveredDevice)
    (h : (l.map (fun d => d.ip)).Nodup) :
    ((upsertDevice l dev).map (fun d => d.ip)).Nodup := by
  induction l with
  | nil => simp [upsertDevice]
  | cons d rest ih =>
    simp only [List.map_cons, List.nodup_cons] at h
    by_cases hd : d.ip = dev.ip
    · simp only [upsertDevice, if_pos hd, List.map_cons, List.nodup_cons]
      rw [← hd]
      exact h
    · simp only [upsertDevice, if_neg hd, List.map_cons, List.nodup_cons]
      refine ⟨fun hmem => ?_, ih h.2⟩
      rcases mem_map_ip_upsert rest dev d.ip hmem with h' | h'
      · exact h.1 h'
      · exact hd h'

theorem mem_upsert_of_mem (l : List DiscoveredDevice) (dev d : DiscoveredDevice)
    (hne : d.ip ≠ dev.ip) (hd : d ∈ l) : d ∈ upsertDevice l dev := by
  induction l with
  | nil => simp at hd
  | cons e rest ih =>
    rcases List.mem_cons.mp hd with he | he
    · subst he
      simp [upsertDevice, if_neg hne]
    · by_cases h : e.ip = dev.ip
      · simp [upsertDevice, if_pos h, he]
      · simp only [upsertDevice, if_neg h, List.mem_cons]
        exact Or.inr (ih he)

theorem mem_of_mem_upsert (l : List DiscoveredDevice) (dev d : DiscoveredDevice)
    (hd : d ∈ upsertDevice l dev) : d ∈ l ∨ d = dev := by
  induction l with
  | nil => simpa [upsertDevice] using hd
  | cons e rest ih =>
    by_cases h : e.ip = dev.ip
    · simp only [upsertDevice, if_pos h, List.mem_cons] at hd
      rcases hd with hd | hd
      · exact Or.inr hd
      · exact Or.inl (List.mem_cons.mpr (Or.inr hd))
    · simp only [upsertDevice, if_neg h, List.mem_cons] at hd
      rcases hd with hd | hd
      · exact Or.inl (List.mem_cons.mpr (Or.inl hd))
      · rcases ih hd with h' | h'
        · exact Or.inl (List.mem_cons.mpr (Or.inr h'))
        · exact Or.inr h'

/-- C8: the requester ignores malformed datagrams and replies whose app
identifier differs from the fixed one; an admitted reply upserts keyed by
responder IP (the new record replaces the first entry with its IP, or is
appended, and nothing else enters the list), and processing any datagram
preserves "at most one entry per distinct IP". -/
theorem c8_requester_dedup (devices : List DiscoveredDevice)
    (datagram : Option DiscoveryBroadcast) (b : DiscoveryBroadcast) :
    (requesterStep devices none = devices) ∧
    (b.app ≠ APP_IDENTIFIER → requesterStep devices (some b) = devices) ∧
    ((devices.map (fun d => d.ip)).Nodup →
      ((requesterStep devices datagram).map (fun d => d.ip)).Nodup) ∧
    (b.app = APP_IDENTIFIER →
      ((requesterStep devices (some b)).find? (fun d => d.ip == b.ip) =
          some (mkDiscoveredDevice b)) ∧
      (∀ d ∈ devices, d.ip ≠ b.ip → d ∈ requesterStep devices (some b)) ∧
      (∀ d ∈ requesterStep devices (some b), d ∈ devices ∨ d = mkDiscoveredDevice b)) := by
  refine ⟨rfl, ?_, ?_, ?_⟩
  · intro h
    simp [requesterStep, h]
  · intro hnd
    cases datagram with
    | none => exact hnd
    | some b' =>
      by_cases h : b'.app = APP_IDENTIFIER
      · simpa [requesterStep, h] using nodup_map_ip_upsert devices (mkDiscoveredDevice b') hnd
      · simpa [requesterStep, h] using hnd
  · intro h
    refine ⟨?_, ?_, ?_⟩
    · simpa [requesterStep, h] using upsertDevice_find devices (mkDiscoveredDevice b)
    · intro d hd hne
      simpa [requesterStep, h] using
        mem_upsert_of_mem devices (mkDiscoveredDevice b) d hne hd
    · intro d hd
      simp only [requesterStep, if_pos h] at hd
      exact mem_of_mem_upsert devices (mkDiscoveredDevice b) d hd

/-- C8 witness: an admitted reply for an already-known IP replaces that entry
(last-seen wins) and the per-IP uniqueness invariant holds afterwards. -/
theorem c8_requester_dedup_witness :
    (requesterStep [⟨"10.0.0.2", 55555, "1.0", "Android Device"⟩]
        (some ⟨"aventuras", "10.0.0.2", 55555, "t", "1.1", "Pixel"⟩)).find?
        (fun d => d.ip == "10.0.0.2") = some ⟨"10.0.0.2", 55555, "1.1", "Pixel"⟩ ∧
    ((requesterStep [⟨"10.0.0.2", 55555, "1.0", "Android Device"⟩]
        (some ⟨"aventuras", "10.0.0.2", 55555, "t", "1.1", "Pixel"⟩)).map
        (fun d => d.ip)).Nodup := by
  constructor
  · exact ((c8_requester_dedup [⟨"10.0.0.2", 55555, "1.0", "Android Device"⟩]
      (some ⟨"aventuras", "10.0.0.2", 55555, "t", "1.1", "Pixel"⟩)
      ⟨"aventuras", "10.0.0.2", 55555, "t", "1.1", "Pixel"⟩).2.2.2 rfl).1
  · exact (c8_requester_dedup [⟨"10.0.0.2", 55555, "1.0", "Android Device"⟩]
      (some ⟨"aventuras", "10.0.0.2", 55555, "t", "1.1", "Pixel"⟩)
      ⟨"aventuras", "10.0.0.2", 55555, "t", "1.1", "Pixel"⟩).2.2.1 (by decide)

/-! ## Broadcast target lemmas (C4) -/

theorem cbtFold_mem (interfaces : List Iface) (acc : List String) (t : String) :
    t ∈ interfaces.foldl (fun ts iface =>
        match ifaceTarget iface with
        | some u => if ts.contains u then ts else ts ++ [u]
        | none => ts) acc ↔
      t ∈ acc ∨ ∃ iface ∈ interfaces, ifaceTarget iface = some t := by
  induction interfaces generalizing acc with
  | nil => simp
  | cons i rest ih =>
    simp only [List.foldl_cons]
    cases hi : ifaceTarget i with
    | none =>
      dsimp only
      rw [ih]
      constructor
      · rintro (h | ⟨j, hj, ht⟩)
        · exact Or.inl h
        · exact Or.inr ⟨j, List.mem_cons.mpr (Or.inr hj), ht⟩
      · rintro (h | ⟨j, hj, ht⟩)
        · exact Or.inl h
        · rcases List.mem_cons.mp hj with rfl | hj'
          · rw [hi] at ht
            exact nomatch ht
          · exact Or.inr ⟨j, hj', ht⟩
    | some u =>
      dsimp only
      by_cases hc : acc.contains u
      · rw [if_pos hc, ih]
        have hu : u ∈ acc := by
          rw [List.contains_iff_exists_mem_beq] at hc
          obtain ⟨a, ha, hab⟩ := hc
          rwa [show u = a from eq_of_beq hab]
        constructor
        · rintro (h | ⟨j, hj, ht⟩)
          · exact Or.inl h
          · exact Or.inr ⟨j, List.mem_cons.mpr (Or.inr hj), ht⟩
        · rintro (h | ⟨j, hj, ht⟩)
          · exact Or.inl h
          · rcases List.mem_cons.mp hj with rfl | hj'
            · rw [hi] at ht
              obtain rfl : u = t := Option.some.inj ht
              exact Or.inl hu
            · exact Or.inr ⟨j, hj', ht⟩
      · rw [if_neg hc, ih]
        simp only [List.mem_append, List.mem_singleton]
        constructor
        · rintro ((h | h) | ⟨j, hj, ht⟩)
          · exact Or.inl h
          · exact Or.inr ⟨i, List.mem_cons.mpr (Or.inl rfl), by rw [hi, h]⟩
          · exact Or.inr ⟨j, List.mem_cons.mpr (Or.inr hj), ht⟩
        · rintro (h | ⟨j, hj, ht⟩)
          · exact Or.inl (Or.inl h)
          · rcases List.mem_cons.mp hj with rfl | hj'
            · rw [hi] at ht
              exact Or.inl (Or.inr (Option.some.inj ht).symm)
            · exact Or.inr ⟨j, hj', ht⟩

theorem cbtFold_nodup (interfaces : List Iface) (acc : List String) (h : acc.Nodup) :
    (interfaces.foldl (fun ts iface =>
        match ifaceTarget iface with
        | some u => if ts.contains u then ts else ts ++ [u]
        | none => ts) acc).Nodup := by
  induction interfaces generalizing acc with
  | nil => exact h
  | cons i rest ih =>
    simp only [List.foldl_cons]
    cases hi : ifaceTarget i with
    | none => exact ih acc h
    | some u =>
      dsimp only
      by_cases hc : acc.contains u
      · rw [if_pos hc]
        exact ih acc h
      · rw [if_neg hc]
        refine ih (acc ++ [u]) ?_
        have hu : u ∉ acc := by
          intro hmem
          exact hc (List.contains_iff_exists_mem_beq.mpr ⟨u, hmem, by simp⟩)
        simp [List.nodup_append, h, hu]

/-- C4: the broadcast-target computation returns, for each non-loopback IPv4
interface, the formatted `(ip | !netmask) : DISCOVERY_PORT` address,
deduplicated, with the limited broadcast appended unless that exact string is
already present; the result always contains the limited broadcast and is
never empty. -/
theorem c4_broadcast_targets (interfaces : List Iface) :
    compute_broadcast_targets interfaces ≠ [] ∧
    (compute_broadcast_targets interfaces).Nodup ∧
    formatTarget ⟨255, 255, 255, 255⟩ ∈ compute_broadcast_targets interfaces ∧
    (∀ t, t ∈ compute_broadcast_targets interfaces ↔
      (t = formatTarget ⟨255, 255, 255, 255⟩ ∨
       ∃ iface ∈ interfaces, ifaceTarget iface = some t)) := by
  unfold compute_broadcast_targets
  set F := interfaces.foldl (fun ts iface =>
    match ifaceTarget iface with
    | some u => if ts.contains u then ts else ts ++ [u]
    | none => ts) [] with hF
  have hFnodup : F.Nodup := cbtFold_nodup interfaces [] List.nodup_nil
  have hFmem : ∀ t, t ∈ F ↔ ∃ iface ∈ interfaces, ifaceTarget iface = some t := by
    intro t
    rw [hF, cbtFold_mem]
    simp
  by_cases hc : F.contains (formatTarget ⟨255, 255, 255, 255⟩)
  · have hfb : formatTarget ⟨255, 255, 255, 255⟩ ∈ F := by
      rw [List.contains_iff_exists_mem_beq] at hc
      obtain ⟨a, ha, hab⟩ := hc
      rwa [show formatTarget ⟨255, 255, 255, 255⟩ = a from eq_of_beq hab]
    rw [if_pos hc]
    refine ⟨List.ne_nil_of_mem hfb, hFnodup, hfb, fun t => ?_⟩
    rw [hFmem]
    constructor
    · exact Or.inr
    · rintro (rfl | h)
      · rwa [← hFmem]
      · exact h
  · have hfb : formatTarget ⟨255, 255, 255, 255⟩ ∉ F := by
      intro hmem
      exact hc (List.contains_iff_exists_mem_beq.mpr ⟨_, hmem, by simp⟩)
    rw [if_neg hc]
    have hfbmem : formatTarget ⟨255, 255, 255, 255⟩ ∈ F ++ [formatTarget ⟨255, 255, 255, 255⟩] :=
      List.mem_append.mpr (Or.inr (by simp))
    refine ⟨List.ne_nil_of_mem hfbmem,
      by simp [List.nodup_append, hFnodup, hfb], hfbmem, fun t => ?_⟩
    simp only [List.mem_append, List.mem_singleton]
    rw [hFmem]
    exact or_comm

/-- C4 witness: for a single non-loopback interface 192.168.1.42/24 the
targets contain the subnet-directed broadcast 192.168.1.255:55556 and the
limited-broadcast fallback, with no duplicates. -/
theorem c4_broadcast_targets_witness :
    "192.168.1.255:55556" ∈
      compute_broadcast_targets [⟨false, IfaceAddr.v4 ⟨192, 168, 1, 42⟩ ⟨255, 255, 255, 0⟩⟩] ∧
    "255.255.255.255:55556" ∈
      compute_broadcast_targets [⟨false, IfaceAddr.v4 ⟨192, 168, 1, 42⟩ ⟨255, 255, 255, 0⟩⟩] ∧
    (compute_broadcast_targets
      [⟨false, IfaceAddr.v4 ⟨192, 168, 1, 42⟩ ⟨255, 255, 255, 0⟩⟩]).Nodup := by
  have h := c4_broadcast_targets [⟨false, IfaceAddr.v4 ⟨192, 168, 1, 42⟩ ⟨255, 255, 255, 0⟩⟩]
  refine ⟨(h.2.2.2 "192.168.1.255:55556").mpr
      (Or.inr ⟨_, List.mem_singleton.mpr rfl, by decide⟩),
    ?_, h.2.1⟩
  have hfb := h.2.2.1
  exact (by decide : formatTarget ⟨255, 255, 255, 255⟩ = "255.255.255.255:55556") ▸ hfb

/-! ## Hex parsing lemmas (C3, C9) -/

theorem charUtf8Size_pos (c : Char) : 1 ≤ charUtf8Size c := by
  unfold charUtf8Size
  split_ifs <;> omega

theorem utf8Len_append (l₁ l₂ : List Char) : utf8Len (l₁ ++ l₂) = utf8Len l₁ + utf8Len l₂ := by
  simp [utf8Len]

theorem utf8Len_all_one (l : List Char) (h : ∀ c ∈ l, charUtf8Size c = 1) :
    utf8Len l = l.length := by
  induction l with
  | nil => rfl
  | cons c rest ih =>
    have hc : charUtf8Size c = 1 := h c (List.mem_cons.mpr (Or.inl rfl))
    have := ih (fun d hd => h d (List.mem_cons.mpr (Or.inr hd)))
    simp [utf8Len, hc] at *
    omega

theorem hexDigitVal_toNat_lt (c : Char) (h : (hexDigitVal c).isSome = true) :
    c.toNat < 128 := by
  unfold hexDigitVal at h
  split_ifs at h with h1 h2 h3
  · omega
  · omega
  · omega
  · simp at h

theorem charUtf8Size_of_hex (c : Char) (h : (hexDigitVal c).isSome = true) :
    charUtf8Size c = 1 := by
  unfold charUtf8Size
  rw [if_pos (hexDigitVal_toNat_lt c h)]

theorem hexDigitVal_lt_16 (c : Char) (d : Nat) (h : hexDigitVal c = some d) : d < 16 := by
  unfold hexDigitVal at h
  split_ifs at h with h1 h2 h3 <;> simp_all <;> omega

theorem hexDigitVal_ne_plus (c : Char) (h : (hexDigitVal c).isSome = true) : c ≠ '+' := by
  intro rfl_h
  subst rfl_h
  simp [hexDigitVal] at h

theorem takeBytes_all_one (n : Nat) :
    ∀ cs : List Char, n ≤ cs.length → (∀ c ∈ cs.take n, charUtf8Size c = 1) →
      takeBytes cs n = some (cs.take n) := by
  induction n with
  | zero =>
    intro cs _ _
    cases cs <;> rfl
  | succ n ih =>
    intro cs hlen hall
    cases cs with
    | nil => simp at hlen
    | cons c rest =>
      have hc : charUtf8Size c = 1 :=
        hall c (by simp [List.take_succ_cons])
      simp only [takeBytes, hc]
      rw [if_pos (by omega)]
      have hrest : takeBytes rest (n + 1 - 1) = some (rest.take n) := by
        simp only [Nat.add_sub_cancel]
        exact ih rest (by simpa using hlen)
          (fun d hd => hall d (by simp [List.take_succ_cons, hd]))
      rw [hrest]
      simp [List.take_succ_cons]

theorem foldl_hex_some (ds : List Char) (a : Nat)
    (hall : ∀ c ∈ ds, (hexDigitVal c).isSome = true)
    (hlen : ds.length ≤ 8) (ha : a < 16 ^ (8 - ds.length)) :
    ds.foldl (fun acc c =>
        match acc, hexDigitVal c with
        | some x, some d =>
          if x * 16 + d < 4294967296 then some (x * 16 + d) else none
        | _, _ => none) (some a)
      = some (ds.foldl (fun x c => x * 16 + (hexDigitVal c).getD 0) a) := by
  induction ds generalizing a with
  | nil => rfl
  | cons c rest ih =>
    obtain ⟨d, hd⟩ : ∃ d, hexDigitVal c = some d :=
      Option.isSome_iff_exists.mp (hall c (List.mem_cons.mpr (Or.inl rfl)))
    have hd16 := hexDigitVal_lt_16 c d hd
    simp only [List.foldl_cons, hd]
    have hb1 : a + 1 ≤ 16 ^ (8 - (rest.length + 1)) := ha
    have hpow : 16 ^ (8 - (rest.length + 1)) * 16 ≤ 16 ^ 8 := by
      have h1 : 16 ^ (8 - (rest.length + 1)) * 16 = 16 ^ (8 - (rest.length + 1) + 1) := by
        rw [pow_succ]
      rw [h1]
      exact Nat.pow_le_pow_right (by omega) (by simp at hlen; omega)
    have hbound : a * 16 + d < 4294967296 := by
      have h2 : a * 16 + d < (a + 1) * 16 := by omega
      have h3 : (a + 1) * 16 ≤ 16 ^ (8 - (rest.length + 1)) * 16 :=
        Nat.mul_le_mul_right 16 hb1
      have h4 : (16 : Nat) ^ 8 = 4294967296 := by norm_num
      omega
    rw [if_pos hbound]
    simp only [Option.getD_some]
    refine ih (a * 16 + d) (fun e he => hall e (List.mem_cons.mpr (Or.inr he)))
      (by simp at hlen; omega) ?_
    have h2 : a * 16 + d < (a + 1) * 16 := by omega
    have h3 : (a + 1) * 16 ≤ 16 ^ (8 - (rest.length + 1)) * 16 :=
      Nat.mul_le_mul_right 16 hb1
    have h5 : 16 ^ (8 - (rest.length + 1)) * 16 = 16 ^ (8 - rest.length) := by
      rw [← pow_succ]
      congr 1
      simp at hlen
      omega
    omega

theorem u32FromHex_hex (ds : List Char) (hne : ds ≠ [])
    (hall : ∀ c ∈ ds, (hexDigitVal c).isSome = true) (hlen : ds.length ≤ 8) :
    u32FromHex ds = some (ds.foldl (fun x c => x * 16 + (hexDigitVal c).getD 0) 0) := by
  cases ds with
  | nil => exact absurd rfl hne
  | cons c rest =>
    have hcp : c ≠ '+' := hexDigitVal_ne_plus c (hall c (List.mem_cons.mpr (Or.inl rfl)))
    unfold u32FromHex
    dsimp only
    rw [if_neg hcp]
    rw [if_neg (by simp)]
    exact foldl_hex_some (c :: rest) 0 hall hlen (Nat.pos_pow_of_pos _ (by omega))

/-- C3: for a token whose hyphen-stripped form has at least 8 characters, the
leading 8 being hex digits (every UUID token qualifies), the connect code is
exactly the spec's formula — those 8 hex characters read as an unsigned
32-bit integer, mod 1,000,000, zero-padded to 6 digits — and validation of a
request token succeeds exactly when it equals the server token or equals that
derived connect code, by exact string match. -/
theorem c3_connect_code (token : String)
    (hlen : 8 ≤ (stripHyphens token).data.length)
    (hhex : ∀ c ∈ (stripHyphens token).data.take 8, (hexDigitVal c).isSome = true) :
    token_to_connect_code token = some (specDeriveConnectCode token) ∧
    (∀ r, validate_token r token = some true ↔
      (r = token ∨ r = specDeriveConnectCode token)) := by
  have hsizes : ∀ c ∈ (stripHyphens token).data.take 8, charUtf8Size c = 1 :=
    fun c hc => charUtf8Size_of_hex c (hhex c hc)
  have htake8len : ((stripHyphens token).data.take 8).length = 8 := by
    rw [List.length_take]
    omega
  have hbytes : 8 ≤ utf8Len (stripHyphens token).data := by
    have hsplit : (stripHyphens token).data =
        (stripHyphens token).data.take 8 ++ (stripHyphens token).data.drop 8 :=
      (List.take_append_drop 8 _).symm
    rw [hsplit, utf8Len_append, utf8Len_all_one _ hsizes, htake8len]
    omega
  have htb : takeBytes (stripHyphens token).data 8 =
      some ((stripHyphens token).data.take 8) :=
    takeBytes_all_one 8 _ hlen hsizes
  have hhs : hexStrOf token = some ((stripHyphens token).data.take 8) := by
    unfold hexStrOf
    dsimp only
    rw [if_pos hbytes]
    exact htb
  have hu32 : u32FromHex ((stripHyphens token).data.take 8) =
      some (((stripHyphens token).data.take 8).foldl
        (fun x c => x * 16 + (hexDigitVal c).getD 0) 0) :=
    u32FromHex_hex _
      (by
        intro hnil
        rw [hnil] at htake8len
        simp at htake8len)
      hhex (by rw [htake8len])
  have hcode : token_to_connect_code token = some (specDeriveConnectCode token) := by
    unfold token_to_connect_code specDeriveConnectCode
    rw [hhs]
    simp only [Option.map_some', hu32, Option.getD_some]
  refine ⟨hcode, fun r => ?_⟩
  by_cases hr : r = token
  · simp [validate_token, hr]
  · simp only [validate_token, if_neg hr, hcode, Option.map_some']
    constructor
    · intro h
      exact Or.inr (eq_of_beq (Option.some.inj h))
    · rintro (h | h)
      · exact absurd h hr
      · rw [h]
        simp

/-- C3 witness: for the token "a1b2c3d4-0000" (leading 8 hex chars
`a1b2c3d4`, value 0xa1b2c3d4 = 2712847316, mod 1,000,000 = 847316) the code
and the spec formula agree and both authentication forms validate. -/
theorem c3_connect_code_witness :
    token_to_connect_code "a1b2c3d4-0000" = some (specDeriveConnectCode "a1b2c3d4-0000") ∧
    specDeriveConnectCode "a1b2c3d4-0000" = "847316" ∧
    validate_token "847316" "a1b2c3d4-0000" = some true ∧
    validate_token "a1b2c3d4-0000" "a1b2c3d4-0000" = some true ∧
    validate_token "847317" "a1b2c3d4-0000" = some false :=
  ⟨(c3_connect_code "a1b2c3d4-0000" (by decide) (by decide)).1,
   by decide,
   ((c3_connect_code "a1b2c3d4-0000" (by decide) (by decide)).2 "847316").mpr
     (Or.inr (by decide)),
   ((c3_connect_code "a1b2c3d4-0000" (by decide) (by decide)).2 "a1b2c3d4-0000").mpr
     (Or.inl rfl),
   by decide⟩

/-- C9 counterexample: `token_to_connect_code` does **not** return normally
on every input string.  On `"€€€"` the hyphen-stripped form is 9 bytes long,
so the code slices `&clean[..8]`, and byte 8 falls inside the third
three-byte `€` character: Rust panics ("byte index 8 is not a char
boundary"), modelled here as `none`. -/
theorem c9_counterexample : token_to_connect_code "€€€" = none := by decide

theorem utf8Len_cons (c : Char) (l : List Char) :
    utf8Len (c :: l) = charUtf8Size c + utf8Len l := by
  simp [utf8Len]

theorem takeBytes_isSome_iff (cs : List Char) :
    ∀ n, (takeBytes cs n).isSome = true ↔ ∃ k, utf8Len (cs.take k) = n := by
  induction cs with
  | nil =>
    intro n
    cases n with
    | zero =>
      simp only [takeBytes, Option.isSome_some, true_iff]
      exact ⟨0, rfl⟩
    | succ m =>
      simp only [takeBytes, Option.isSome_none, Bool.false_eq_true, false_iff]
      rintro ⟨k, hk⟩
      simp [utf8Len] at hk
  | cons c rest ih =>
    intro n
    cases n with
    | zero =>
      simp only [takeBytes, Option.isSome_some, true_iff]
      exact ⟨0, rfl⟩
    | succ m =>
      simp only [takeBytes]
      by_cases hc : charUtf8Size c ≤ m + 1
      · rw [if_pos hc]
        have hmap : ((takeBytes rest (m + 1 - charUtf8Size c)).map
            (fun l => c :: l)).isSome = (takeBytes rest (m + 1 - charUtf8Size c)).isSome := by
          cases takeBytes rest (m + 1 - charUtf8Size c) <;> rfl
        rw [hmap, ih (m + 1 - charUtf8Size c)]
        constructor
        · rintro ⟨k, hk⟩
          refine ⟨k + 1, ?_⟩
          rw [List.take_succ_cons, utf8Len_cons, hk]
          omega
        · rintro ⟨k, hk⟩
          cases k with
          | zero => simp [utf8Len] at hk
          | succ j =>
            refine ⟨j, ?_⟩
            rw [List.take_succ_cons, utf8Len_cons] at hk
            omega
      · rw [if_neg hc]
        simp only [Option.isSome_none, Bool.false_eq_true, false_iff]
        rintro ⟨k, hk⟩
        cases k with
        | zero => simp [utf8Len] at hk
        | succ j =>
          rw [List.take_succ_cons, utf8Len_cons] at hk
          omega

/-- C9 (amended): `token_to_connect_code` returns normally **exactly** when
byte 8 of the hyphen-stripped token falls on a UTF-8 character boundary,
i.e. when it is shorter than 8 bytes or some character prefix is exactly
8 bytes long — in particular for every all-ASCII input, including the empty
string, strings shorter than 8 characters and strings with non-hex leading
characters; any normally returned value has exactly 6 ASCII decimal digits,
with the value falling back to 0 (result "000000") when the hex parse fails. -/
theorem c9_total_digits (token : String) :
    ((token_to_connect_code token).isSome = true ↔
      (utf8Len (stripHyphens token).data < 8 ∨
       ∃ k, utf8Len ((stripHyphens token).data.take k) = 8)) ∧
    ((∀ c ∈ (stripHyphens token).data, charUtf8Size c = 1) →
      (token_to_connect_code token).isSome = true) ∧
    (∀ s, token_to_connect_code token = some s →
      s.length = 6 ∧ (∀ c ∈ s.data, c.isDigit = true) ∧
      (∀ hexStr, hexStrOf token = some hexStr → u32FromHex hexStr = none →
        s = "000000")) := by
  have hsome : (token_to_connect_code token).isSome = (hexStrOf token).isSome := by
    unfold token_to_connect_code
    cases hexStrOf token <;> rfl
  have h1 : (token_to_connect_code token).isSome = true ↔
      (utf8Len (stripHyphens token).data < 8 ∨
       ∃ k, utf8Len ((stripHyphens token).data.take k) = 8) := by
    rw [hsome]
    unfold hexStrOf
    dsimp only
    by_cases hb : 8 ≤ utf8Len (stripHyphens token).data
    · rw [if_pos hb, takeBytes_isSome_iff]
      constructor
      · intro h
        exact Or.inr h
      · rintro (h | h)
        · omega
        · exact h
    · rw [if_neg hb]
      exact iff_of_true rfl (Or.inl (by omega))
  refine ⟨h1, fun hall => h1.mpr ?_, ?_⟩
  · by_cases hb : 8 ≤ utf8Len (stripHyphens token).data
    · refine Or.inr ⟨8, ?_⟩
      have hlen : utf8Len (stripHyphens token).data = (stripHyphens token).data.length :=
        utf8Len_all_one _ hall
      rw [utf8Len_all_one _ (fun c hc => hall c (List.mem_of_mem_take hc)),
        List.length_take]
      omega
    · exact Or.inl (by omega)
  · intro s hs
    unfold token_to_connect_code at hs
    cases hh : hexStrOf token with
    | none =>
      rw [hh] at hs
      exact nomatch hs
    | some hexStr =>
      rw [hh] at hs
      simp only [Option.map_some'] at hs
      have hs' : s = format06 ((u32FromHex hexStr).getD 0 % 1000000) :=
        (Option.some.inj hs).symm
      subst hs'
      refine ⟨format06_length _ (Nat.mod_lt _ (by omega)), format06_all_digit _, ?_⟩
      intro hexStr' hh' hnone
      obtain rfl : hexStr' = hexStr := (Option.some.inj hh').symm
      rw [hnone]
      decide

/-- C9 witness: "€€ab" (bytes 3+3+1+1, so byte 8 is a character boundary
even though the string is not all-ASCII) returns normally, as does the
all-ASCII "zz"; both fall back to "000000" since their leading characters
are not hex, and the result has 6 decimal digits. -/
theorem c9_total_digits_witness :
    (token_to_connect_code "€€ab").isSome = true ∧
    (token_to_connect_code "zz").isSome = true ∧
    ("000000" : String).length = 6 ∧
    ("000000" : String) = "000000" :=
  ⟨(c9_total_digits "€€ab").1.mpr (Or.inr ⟨4, by decide⟩),
   (c9_total_digits "zz").2.1 (by decide),
   ((c9_total_digits "zz").2.2 "000000" (by decide)).1,
   ((c9_total_digits "€€ab").2.2 "000000" (by decide)).2.2 ['€', '€', 'a', 'b']
     (by decide) (by decide)⟩
